import Mathlib

/-!
Verification of the `async-spsc` bounded SPSC channel core.

The definitions below are a shallow embedding of the Rust sources
(`src/state.rs`, `src/slice.rs`, `src/sender.rs`, `src/receiver.rs`,
`src/lib.rs`) for a 64-bit platform: `usize` is modelled as `Nat` with
explicit `% 2^64`-range reasoning where it matters, `Half = u32` as `Nat`
with explicit `% 2^32` wrapping where the source can wrap, and
`MaybeUninit<T>` slots as `Option T` (`none` = uninitialised).
Fallible paths return `Except`; the `assert!` panics in the constructor
are modelled as `Option.none`.
-/

namespace AsyncSpsc

/-- `state.rs`: half-word width on a 64-bit platform (`BITS`). -/
def BITS : Nat := 32

/-- `state.rs`: `HIGH_BIT: Half = 1 << (BITS - 1)`. -/
def HIGH_BIT : Nat := 1 <<< (BITS - 1)

/-- `state.rs`: `S_CLOSE: usize = HIGH_BIT as usize`. -/
def S_CLOSE : Nat := HIGH_BIT

/-- `state.rs`: `R_CLOSE: usize = S_CLOSE << BITS`. -/
def R_CLOSE : Nat := S_CLOSE <<< BITS

/-- `state.rs`: `ANY_CLOSE: usize = S_CLOSE | R_CLOSE`. -/
def ANY_CLOSE : Nat := S_CLOSE ||| R_CLOSE

/-- `state.rs`: `FRONT: usize = Half::MAX as usize`. -/
def FRONT : Nat := 2 ^ BITS - 1

/-- `state.rs`: `BACK: usize = !FRONT` (complement on a 64-bit word). -/
def BACK : Nat := (2 ^ 64 - 1) ^^^ FRONT

/-- `state.rs`: `MAX_CAPACITY: Half = (HIGH_BIT >> 1) - 1`. -/
def MAX_CAPACITY : Nat := (HIGH_BIT >>> 1) - 1

/-- `state.rs`: `HalfState(pub Half)` — one half of the packed state word. -/
structure HalfState where
  val : Nat
deriving DecidableEq, Repr

/-- `state.rs`: `HalfState::position`, `self.0 & !(1 << (BITS - 1))`;
the `u32` complement of `HIGH_BIT` is `(2^BITS - 1) ^^^ HIGH_BIT`. -/
def HalfState.position (s : HalfState) : Nat :=
  s.val &&& ((2 ^ BITS - 1) ^^^ HIGH_BIT)

/-- `state.rs`: `HalfState::is_closed`, `(self.0 & HIGH_BIT) != 0`. -/
def HalfState.is_closed (s : HalfState) : Bool :=
  s.val &&& HIGH_BIT != 0

/-- `state.rs`: `HalfState::advance`, `(self.0 + by) % (2 * cap)`.
The `u32` addition wraps modulo `2^BITS` (release-mode semantics); for the
capacities admitted by the constructor (`cap ≤ MAX_CAPACITY < 2^31`) the
product `2 * cap` does not wrap.  Rust would panic on `% 0` (`cap = 0`),
which the constructor rules out. -/
def HalfState.advance (s : HalfState) (cap k : Nat) : HalfState :=
  ⟨((s.val + k) % 2 ^ BITS) % (2 * cap)⟩

/-- `state.rs`: `HalfState::close`, `self.0 | HIGH_BIT`. -/
def HalfState.close (s : HalfState) : HalfState :=
  ⟨s.val ||| HIGH_BIT⟩

/-- Modelled from the spec: `HalfState::index(cap)` is called by
`receiver.rs` but its definition is not among the provided sources; the
spec's glossary defines the physical slot index as
`virtual_position mod capacity`, matching the `% cap` indexing of
`slice.rs`. -/
def HalfState.index (s : HalfState) (cap : Nat) : Nat :=
  s.position % cap

/-- `state.rs`: `State(pub usize)` — the packed state word: front half in
the low `BITS` bits, back half in the high bits. -/
structure State where
  val : Nat
deriving DecidableEq, Repr

/-- `state.rs`: `State::front`, `self.0 & FRONT`. -/
def State.front (s : State) : HalfState :=
  ⟨s.val &&& FRONT⟩

/-- `state.rs`: `State::back`, `self.0 >> BITS`. -/
def State.back (s : State) : HalfState :=
  ⟨s.val >>> BITS⟩

/-- `state.rs`: `State::with_front`, `(self.0 & BACK) | front.0`. -/
def State.with_front (s : State) (f : HalfState) : State :=
  ⟨(s.val &&& BACK) ||| f.val⟩

/-- `state.rs`: `State::with_back`, `(self.0 & FRONT) | (back.0 << BITS)`. -/
def State.with_back (s : State) (b : HalfState) : State :=
  ⟨(s.val &&& FRONT) ||| (b.val <<< BITS)⟩

/-- `state.rs`: `State::is_closed`, `(self.0 & ANY_CLOSE) != 0`. -/
def State.is_closed (s : State) : Bool :=
  s.val &&& ANY_CLOSE != 0

/-- `state.rs`: `State::len`.  The `u32` subtraction `2 * cap - b + f`
cannot underflow for the in-range states reached by the protocol
(`b < 2 * cap`); `Nat` subtraction truncates at the same inputs where the
Rust debug build would panic. -/
def State.len (s : State) (cap : Nat) : Nat :=
  let f := s.front.position
  let b := s.back.position
  if f ≥ b then f - b else 2 * cap - b + f

/-- `state.rs`: `State::is_full`, `self.len(cap) == cap`. -/
def State.is_full (s : State) (cap : Nat) : Bool :=
  s.len cap == cap

/-- `state.rs`: `State::is_empty`,
`self.front().position() == self.back().position()`. -/
def State.is_empty (s : State) : Bool :=
  s.front.position == s.back.position

/-- `state.rs`: `State::space`, `cap - self.len(cap)`. -/
def State.space (s : State) (cap : Nat) : Nat :=
  cap - s.len cap

/-- `slice.rs`: the loop body of `Slice::cleanup`, accumulating the
physical slot indices passed to `drop_in_place` (each is `b % cap`, the
`IndexMut` computation), in order.  The Rust `loop` stops when
`front == back.position()`; `fuel` bounds the number of iterations, and
`2 * cap + 2` iterations are enough for every state evaluated below. -/
def cleanupGo (cap front : Nat) : HalfState → Nat → List Nat → List Nat
  | _, 0, acc => acc
  | back, fuel + 1, acc =>
    let b := back.position
    if front = b then acc
    else cleanupGo cap front (back.advance cap 1) fuel (acc ++ [b % cap])

/-- `slice.rs`: `Slice::cleanup(state)` — the list of physical slot
indices dropped, in order.  `front` is `state.front().position()` and the
loop starts from the raw `state.back()` (close bit included, as in the
source). -/
def cleanupDrops (cap : Nat) (state : State) : List Nat :=
  cleanupGo cap state.front.position state.back (2 * cap + 2) []

/-- `lib.rs`: `SendErrorKind`. -/
inductive SendErrorKind where
  | Closed
  | Full
deriving DecidableEq, Repr

/-- `lib.rs`: `SendError<T>`. -/
structure SendError (T : Type) where
  kind : SendErrorKind
  value : T
deriving DecidableEq, Repr

/-- `lib.rs`: `Closed` — the receiver-side error. -/
structure Closed where
deriving DecidableEq, Repr

deriving instance DecidableEq for Except

/-- Reading an initialised slot (`MaybeUninit::assume_init` /
`as_mut_ptr().read()`): defined as `default` on an uninitialised slot,
which the Rust source never does on the paths proved below. -/
def slotRead {T : Type} [Inhabited T] (buf : List (Option T)) (i : Nat) : T :=
  (buf.getD i none).getD default

/-- Result of one non-suspending send: the returned `Result`, the
sender's cached state word, the shared atomic state word, and the slot
array, all after the call. -/
structure SendOut (T : Type) where
  res : Except (SendError T) Unit
  cache : Nat
  atomic : Nat
  buf : List (Option T)
deriving Repr

/-- `sender.rs`: the tail of `Sending::now` after the full/closed checks:
write the value at `front.position() % cap` (the `IndexMut` of
`slice.rs`), commit the advance with one `fetch_xor`, adopt the post-RMW
word as the cache, and on observing the consumer's close recover the
value (the slot becomes logically uninitialised) and rewind the cached
front (`Sender::rewind_state`: `(self.state.0 & BACK) | to.0`). -/
def sendCommit {T : Type} [Inhabited T] (cap : Nat) (cache atomic : Nat)
    (buf : List (Option T)) (v : T) : SendOut T :=
  let s := (⟨cache⟩ : State).front
  let i := s.position % cap
  let buf1 := buf.set i (some v)
  let mask := s.val ^^^ (s.advance cap 1).val
  let state2 := atomic ^^^ mask
  if (⟨state2⟩ : State).is_closed then
    let value := slotRead buf1 i
    let rewound := (state2 &&& BACK) ||| s.val
    ⟨.error ⟨.Closed, value⟩, rewound, state2, buf1.set i none⟩
  else
    ⟨.ok (), state2, state2, buf1⟩

/-- `sender.rs`: `Sending::now`.  `cache` is the sender's cached state
word, `atomic` the shared atomic word (a fresh load of which is the
`refresh_state` in the full path), `buf` the slot array. -/
def sendNow {T : Type} [Inhabited T] (cap : Nat) (cache atomic : Nat)
    (buf : List (Option T)) (v : T) : SendOut T :=
  if (⟨cache⟩ : State).is_closed then ⟨.error ⟨.Closed, v⟩, cache, atomic, buf⟩
  else if (⟨cache⟩ : State).is_full cap then
    if (⟨atomic⟩ : State).is_closed then ⟨.error ⟨.Closed, v⟩, atomic, atomic, buf⟩
    else if (⟨atomic⟩ : State).is_full cap then ⟨.error ⟨.Full, v⟩, atomic, atomic, buf⟩
    else sendCommit cap atomic atomic buf v
  else sendCommit cap cache atomic buf v

/-- Result of one non-suspending receive. -/
structure RecvOut (T : Type) where
  res : Except Closed (Option T)
  cache : Nat
  atomic : Nat
  buf : List (Option T)
deriving Repr

/-- `receiver.rs`: the tail of `Receiving::now` once a message is known
to wait: move the value out of the slot at `back.index(cap)` (the slot
becomes logically uninitialised), then commit the back advance with one
`fetch_xor` of the mask shifted into the high half, adopting the post-RMW
word as the cache. -/
def recvCommit {T : Type} [Inhabited T] (cap : Nat) (observed atomic : Nat)
    (buf : List (Option T)) : RecvOut T :=
  let back := (⟨observed⟩ : State).back
  let i := back.index cap
  let value := slotRead buf i
  let buf1 := buf.set i none
  let b := back.advance cap 1
  let mask := (back.val ^^^ b.val) <<< BITS
  let state := atomic ^^^ mask
  ⟨.ok (some value), state, state, buf1⟩

/-- `receiver.rs`: `Receiving::now`.  `cache` is the receiver's cached
state word, `atomic` the shared atomic word (whose fresh load is the
reload in the empty path). -/
def receiveNow (T : Type) [Inhabited T] (cap : Nat) (cache atomic : Nat)
    (buf : List (Option T)) : RecvOut T :=
  if (⟨cache⟩ : State).is_empty then
    if (⟨cache⟩ : State).is_closed then ⟨.error ⟨⟩, cache, atomic, buf⟩
    else if (⟨atomic⟩ : State).is_empty then
      if (⟨atomic⟩ : State).is_closed then ⟨.error ⟨⟩, atomic, atomic, buf⟩
      else ⟨.ok none, atomic, atomic, buf⟩
    else recvCommit cap atomic atomic buf
  else recvCommit cap cache atomic buf

/-- Result of dropping a handle: the state word passed to `cleanup` when
this handle turned out to be the last referent (`none` otherwise), and
the atomic word after the drop. -/
structure DropOut where
  cleaned : Option State
  atomic : Nat
deriving DecidableEq, Repr

/-- `sender.rs`: `<Sender as Drop>::drop`: if the cached state already
shows a close bit, clean up with the cached state; otherwise
`fetch_xor(S_CLOSE)` and, if the pre-RMW word shows the peer closed,
clean up with that pre-RMW word. -/
def senderDrop (cache atomic : Nat) : DropOut :=
  if (⟨cache⟩ : State).is_closed then ⟨some ⟨cache⟩, atomic⟩
  else
    let atomic1 := atomic ^^^ S_CLOSE
    if (⟨atomic⟩ : State).is_closed then ⟨some ⟨atomic⟩, atomic1⟩
    else ⟨none, atomic1⟩

/-- `receiver.rs`: `<Receiver as Drop>::drop`: if the cached state
already shows a close bit, clean up with the cached state; otherwise
`fetch_xor(R_CLOSE)` and, if the pre-RMW word (`state2`) shows the peer
closed, clean up — with the *cached* word `state`, exactly as the source
does. -/
def receiverDrop (cache atomic : Nat) : DropOut :=
  if (⟨cache⟩ : State).is_closed then ⟨some ⟨cache⟩, atomic⟩
  else
    let atomic1 := atomic ^^^ R_CLOSE
    if (⟨atomic⟩ : State).is_closed then ⟨some ⟨cache⟩, atomic1⟩
    else ⟨none, atomic1⟩

/-- `sender.rs`: `Sender::space` reads the cached state. -/
def Sender.space (cache cap : Nat) : Nat :=
  (⟨cache⟩ : State).space cap

/-- `sender.rs`: `Sender::is_full` reads the cached state. -/
def Sender.is_full (cache cap : Nat) : Bool :=
  (⟨cache⟩ : State).is_full cap

/-- `sender.rs`: `Sender::is_empty` — the source computes
`self.state.is_full(self.cap)`. -/
def Sender.is_empty (cache cap : Nat) : Bool :=
  (⟨cache⟩ : State).is_full cap

/-- The shared control block reachable from both handles: the atomic
state word and the slot array (`lib.rs`: `Spsc`). -/
structure Channel (T : Type) where
  state : Nat
  buf : List (Option T)
deriving Repr

/-- The pair returned by `spsc`: one shared control block and the two
handles' cached state words and capacity. -/
structure Created (T : Type) where
  chan : Channel T
  senderCache : Nat
  receiverCache : Nat
  cap : Nat
deriving Repr

/-- `lib.rs`: `spsc(capacity)` — `none` models the `assert!` panics;
otherwise both handles are created over one freshly zeroed control block
with `State(0)` caches. -/
def spsc (T : Type) (capacity : Nat) : Option (Created T) :=
  if capacity > 0 ∧ capacity ≤ MAX_CAPACITY then
    some ⟨⟨0, List.replicate capacity none⟩, 0, 0, capacity⟩
  else none

/-- Whole-channel state for interleaving runs: the shared atomic word and
slot array, both handle caches, and the histories of accepted sends and
successful receives. -/
structure Sys (T : Type) where
  cap : Nat
  atomic : Nat
  sCache : Nat
  rCache : Nat
  buf : List (Option T)
  sent : List T
  received : List T
deriving Repr

/-- The channel as freshly constructed by `spsc`. -/
def Sys.init (T : Type) (cap : Nat) : Sys T :=
  ⟨cap, 0, 0, 0, List.replicate cap none, [], []⟩

/-- One operation of an interleaving: a producer `sendNow v` or a
consumer `receiveNow`. -/
inductive Op (T : Type) where
  | push (v : T)
  | pop
deriving Repr

/-- Execute one operation; a send that returns `Ok` appends its value to
`sent`, a receive that returns `Ok(Some v)` appends `v` to `received`. -/
def Sys.step {T : Type} [Inhabited T] (σ : Sys T) : Op T → Sys T
  | .push v =>
    let o := sendNow σ.cap σ.sCache σ.atomic σ.buf v
    { σ with
      sCache := o.cache, atomic := o.atomic, buf := o.buf,
      sent := match o.res with
        | .ok _ => σ.sent ++ [v]
        | .error _ => σ.sent }
  | .pop =>
    let o := receiveNow T σ.cap σ.rCache σ.atomic σ.buf
    { σ with
      rCache := o.cache, atomic := o.atomic, buf := o.buf,
      received := match o.res with
        | .ok (some v) => σ.received ++ [v]
        | _ => σ.received }

/-- Run an arbitrary interleaving of producer and consumer operations on
a fresh channel of capacity `cap`. -/
def Sys.run (T : Type) [Inhabited T] (cap : Nat) (ops : List (Op T)) : Sys T :=
  ops.foldl Sys.step (Sys.init T cap)

/-- A state word packed from a front half `f` and a back half `b`
(ghost-level helper for stating invariants; `pack f b = f ||| (b <<< BITS)`
whenever `f < 2^BITS`). -/
def pack (f b : Nat) : Nat := 2 ^ 32 * b + f

/-- The inductive invariant of a run, with ghost counters: `S` committed
sends, `R` committed receives, `Rs` the receive count at the sender's
last cache update, `Ss` the send count at the receiver's last cache
update. -/
def InvAt {T : Type} [Inhabited T] (σ : Sys T) (S R Rs Ss : Nat) : Prop :=
  0 < σ.cap ∧ σ.cap ≤ MAX_CAPACITY ∧
  R ≤ S ∧ S ≤ R + σ.cap ∧
  Rs ≤ R ∧ S ≤ Rs + σ.cap ∧
  R ≤ Ss ∧ Ss ≤ S ∧ Ss ≤ R + σ.cap ∧
  σ.atomic = pack (S % (2 * σ.cap)) (R % (2 * σ.cap)) ∧
  σ.sCache = pack (S % (2 * σ.cap)) (Rs % (2 * σ.cap)) ∧
  σ.rCache = pack (Ss % (2 * σ.cap)) (R % (2 * σ.cap)) ∧
  σ.sent.length = S ∧
  σ.received = σ.sent.take R ∧
  σ.buf.length = σ.cap ∧
  (∀ j, R ≤ j → j < S → σ.buf[j % σ.cap]? = some (some (σ.sent.getD j default)))

/-- The run invariant. -/
def Inv {T : Type} [Inhabited T] (σ : Sys T) : Prop :=
  ∃ S R Rs Ss, InvAt σ S R Rs Ss

/-! ## Numeric values of the packed-word constants -/

theorem HIGH_BIT_eq : HIGH_BIT = 2 ^ 31 := by decide

theorem FRONT_eq : FRONT = 2 ^ 32 - 1 := by decide

theorem BACK_eq : BACK = 2 ^ 64 - 2 ^ 32 := by decide

theorem S_CLOSE_eq : S_CLOSE = 2 ^ 31 := by decide

theorem R_CLOSE_eq : R_CLOSE = 2 ^ 63 := by decide

theorem ANY_CLOSE_eq : ANY_CLOSE = 2 ^ 31 ||| 2 ^ 63 := by decide

theorem MAX_CAPACITY_eq : MAX_CAPACITY = 2 ^ 30 - 1 := by decide

/-! ## Bit-level toolkit -/

theorem and_two_pow_eq_zero {x : Nat} (n : Nat) (h : x.testBit n = false) :
    x &&& 2 ^ n = 0 := by
  apply Nat.eq_of_testBit_eq
  intro i
  simp only [Nat.testBit_and, Nat.zero_testBit]
  rcases eq_or_ne n i with rfl | hne
  · simp [h]
  · simp [Nat.testBit_two_pow, hne]

theorem position_eq_mod (s : HalfState) : s.position = s.val % 2 ^ 31 := by
  have h : ((2 ^ BITS - 1) ^^^ HIGH_BIT : Nat) = 2 ^ 31 - 1 := by decide
  rw [HalfState.position, h, Nat.and_pow_two_sub_one_eq_mod]

theorem half_is_closed_of_lt {h : Nat} (hlt : h < 2 ^ 31) :
    HalfState.is_closed ⟨h⟩ = false := by
  rw [HalfState.is_closed, HIGH_BIT_eq, and_two_pow_eq_zero 31 (Nat.testBit_lt_two_pow hlt)]
  rfl

theorem front_val (s : State) : s.front.val = s.val % 2 ^ 32 := by
  have h : FRONT = 2 ^ 32 - 1 := FRONT_eq
  rw [State.front]
  show s.val &&& FRONT = _
  rw [h, Nat.and_pow_two_sub_one_eq_mod]

theorem back_val (s : State) : s.back.val = s.val / 2 ^ 32 := by
  rw [State.back]
  show s.val >>> BITS = _
  rw [Nat.shiftRight_eq_div_pow]
  rfl

theorem frontPos (s : State) : s.front.position = s.val % 2 ^ 31 := by
  rw [position_eq_mod, front_val, Nat.mod_mod_of_dvd _ (by norm_num)]

theorem backPos (s : State) : s.back.position = s.val / 2 ^ 32 % 2 ^ 31 := by
  rw [position_eq_mod, back_val]

/-! ## Claim C8 -/

/-- Claim C8: the producer's `is_empty` accessor is claimed to return
`true` exactly when the cached state has `front.pos == back.pos`; the
source instead computes `is_full`.  On a freshly created capacity-1
channel (cached state word `0`, an empty channel), the accessor returns
`false` while the state is empty — the code contradicts its own doc
comment and `State::is_empty`. -/
theorem sender_is_empty_misdefined :
    Sender.is_empty 0 1 = false ∧ State.is_empty ⟨0⟩ = true ∧
      Sender.is_empty 0 1 ≠ State.is_empty ⟨0⟩ := by
  decide

/-! ## Claim C3 -/

/-- Claim C3 counterexample: for the closed half-state `c` with value
`HIGH_BIT` (position 0, close bit set), capacity 3 and step 1, the source
`advance` yields `⟨3⟩` — position `3 ≠ (0 + 1) % 6` and close bit
cleared — refuting both conjuncts of the claim at this input. -/
theorem advance_close_bit_not_preserved :
    ¬ ((HalfState.advance ⟨2 ^ 31⟩ 3 1).position
          = ((⟨2 ^ 31⟩ : HalfState).position + 1) % (2 * 3)
        ∧ (HalfState.advance ⟨2 ^ 31⟩ 3 1).is_closed
          = (⟨2 ^ 31⟩ : HalfState).is_closed) := by
  decide

/-- Claim C3, amended: for every half-state whose close bit is clear
(the only kind the protocol ever advances), every in-range capacity and
every step small enough not to overflow the `u32` addition, `advance`
yields position `(pos + k) mod (2·cap)` with the close bit still clear
(hence equal to the close bit of `c`). -/
theorem testBit_false_of_and_two_pow {x n : Nat} (h : x &&& 2 ^ n = 0) :
    x.testBit n = false := by
  have h2 := congrArg (fun y => Nat.testBit y n) h
  simpa [Nat.testBit_and, Nat.testBit_two_pow, Nat.zero_testBit] using h2

theorem lt_two_pow_31_of_open {c : Nat} (hc : c < 2 ^ 32)
    (hopen : HalfState.is_closed ⟨c⟩ = false) : c < 2 ^ 31 := by
  have h0 : c &&& 2 ^ 31 = 0 := by
    simpa [HalfState.is_closed, HIGH_BIT_eq] using hopen
  have hb : c.testBit 31 = false := testBit_false_of_and_two_pow h0
  have hb' : ¬ c / 2 ^ 31 % 2 = 1 := by
    simpa [Nat.testBit_to_div_mod] using hb
  omega

theorem advance_spec_of_open (c cap k : Nat) (hc : c < 2 ^ 32)
    (hopen : HalfState.is_closed ⟨c⟩ = false)
    (hcap : 0 < cap) (hmax : cap ≤ MAX_CAPACITY) (hk : k < 2 ^ 31) :
    (HalfState.advance ⟨c⟩ cap k).position
        = ((⟨c⟩ : HalfState).position + k) % (2 * cap)
      ∧ (HalfState.advance ⟨c⟩ cap k).is_closed
        = (⟨c⟩ : HalfState).is_closed := by
  have hmax' : cap ≤ 2 ^ 30 - 1 := MAX_CAPACITY_eq ▸ hmax
  have hc31 : c < 2 ^ 31 := lt_two_pow_31_of_open hc hopen
  have hm : 0 < 2 * cap := by omega
  have hsum : c + k < 2 ^ 32 := by omega
  have hr : (c + k) % 2 ^ 32 = c + k := Nat.mod_eq_of_lt hsum
  have hrlt : (c + k) % (2 * cap) < 2 ^ 31 :=
    lt_of_lt_of_le (Nat.mod_lt _ hm) (by omega)
  have hBITS : (2 : Nat) ^ BITS = 2 ^ 32 := rfl
  constructor
  · simp only [HalfState.advance, hBITS, position_eq_mod, hr]
    rw [Nat.mod_eq_of_lt hrlt, Nat.mod_eq_of_lt hc31]
  · simp only [HalfState.advance, hBITS, hr]
    rw [half_is_closed_of_lt hrlt, hopen]

/-- Witness for `advance_spec_of_open` at `c = 5`, `cap = 3`, `k = 1`. -/
theorem advance_spec_of_open_witness :
    (5 : Nat) < 2 ^ 32 ∧ HalfState.is_closed ⟨5⟩ = false ∧ (0 < 3 ∧ 3 ≤ MAX_CAPACITY)
      ∧ 1 < 2 ^ 31
      ∧ ((HalfState.advance ⟨5⟩ 3 1).position
            = ((⟨5⟩ : HalfState).position + 1) % (2 * 3)
          ∧ (HalfState.advance ⟨5⟩ 3 1).is_closed = (⟨5⟩ : HalfState).is_closed) :=
  ⟨by decide, by decide, ⟨by decide, by decide⟩, by decide,
    advance_spec_of_open 5 3 1 (by decide) (by decide) (by decide) (by decide) (by decide)⟩

/-! ## Claim C2 -/

/-- Claim C2: cleanup is claimed to drop each virtual position in
`[back.pos, front.pos)` exactly once and touch no other slot.  A
reachable scenario at capacity 3 (one `sendNow 42` succeeds, then the
receiver drops, then the sender drops and — seeing the pre-RMW word
closed — runs cleanup with that word): the state handed to cleanup is
`⟨1 + 2^63⟩` (front position 1, back half `R_CLOSE`, so exactly one
in-flight value at slot 0), yet the loop, advancing the *raw* back half
whose close bit is still set, drops physical slot 0 three times and slots
1 and 2 once each. -/
theorem cleanup_double_drop_scenario :
    (sendNow 3 0 0 (List.replicate 3 (none : Option Nat)) 42).res = .ok ()
      ∧ (sendNow 3 0 0 (List.replicate 3 (none : Option Nat)) 42).cache = 1
      ∧ (sendNow 3 0 0 (List.replicate 3 (none : Option Nat)) 42).atomic = 1
      ∧ (receiverDrop 0 1).cleaned = none
      ∧ (receiverDrop 0 1).atomic = 1 + 2 ^ 63
      ∧ (senderDrop 1 (1 + 2 ^ 63)).cleaned = some ⟨1 + 2 ^ 63⟩
      ∧ State.len ⟨1 + 2 ^ 63⟩ 3 = 1
      ∧ (⟨1 + 2 ^ 63⟩ : State).front.position = 1
      ∧ (⟨1 + 2 ^ 63⟩ : State).back.position = 0
      ∧ cleanupDrops 3 ⟨1 + 2 ^ 63⟩ = [0, 0, 1, 2, 0] := by
  decide

/-! ## Claim C5 -/

/-- Claim C5: a handle that loses the close race is claimed to invoke
cleanup with the post-RMW state, never an older cached snapshot.  A
reachable scenario at capacity 2 (one `sendNow 42` succeeds with the
receiver's cache still at 0, then the sender drops and closes, then the
receiver drops): the receiver's close RMW sees the peer closed, but the
source passes its *stale cached* word `0` to cleanup, which then drops
nothing — while cleanup at the post-RMW word `(2^31 + 1) ^^^ 2^63` would
drop the in-flight slot 0. -/
theorem receiver_drop_stale_cleanup_scenario :
    (sendNow 2 0 0 (List.replicate 2 (none : Option Nat)) 42).res = .ok ()
      ∧ (sendNow 2 0 0 (List.replicate 2 (none : Option Nat)) 42).atomic = 1
      ∧ (senderDrop 1 1).cleaned = none
      ∧ (senderDrop 1 1).atomic = 2 ^ 31 + 1
      ∧ (receiverDrop 0 (2 ^ 31 + 1)).cleaned = some ⟨0⟩
      ∧ (receiverDrop 0 (2 ^ 31 + 1)).atomic = (2 ^ 31 + 1) ^^^ 2 ^ 63
      ∧ cleanupDrops 2 ⟨0⟩ = []
      ∧ State.len ⟨(2 ^ 31 + 1) ^^^ 2 ^ 63⟩ 2 = 1
      ∧ cleanupDrops 2 ⟨(2 ^ 31 + 1) ^^^ 2 ^ 63⟩ = [0] := by
  decide

/-! ## More of the bit-level toolkit: packed words -/

theorem xor_low_split (q r m : Nat) (hr : r < 2 ^ 32) (hm : m < 2 ^ 32) :
    (2 ^ 32 * q + r) ^^^ m = 2 ^ 32 * q + (r ^^^ m) := by
  rw [Nat.mul_add_lt_is_or hr, Nat.mul_add_lt_is_or (Nat.xor_lt_two_pow hr hm)]
  apply Nat.eq_of_testBit_eq
  intro i
  simp only [Nat.testBit_or, Nat.testBit_xor, Nat.testBit_mul_pow_two]
  by_cases h : 32 ≤ i
  · have hm' : m.testBit i = false :=
      Nat.testBit_lt_two_pow (lt_of_lt_of_le hm (Nat.pow_le_pow_right (by omega) h))
    have hr' : r.testBit i = false :=
      Nat.testBit_lt_two_pow (lt_of_lt_of_le hr (Nat.pow_le_pow_right (by omega) h))
    simp [h, hm', hr']
  · simp [h]

theorem xor_high_split (q r m : Nat) (hr : r < 2 ^ 32) :
    (2 ^ 32 * q + r) ^^^ (m <<< 32) = 2 ^ 32 * (q ^^^ m) + r := by
  have hs : m <<< 32 = 2 ^ 32 * m := by rw [Nat.shiftLeft_eq]; ring
  rw [hs, Nat.mul_add_lt_is_or hr, Nat.mul_add_lt_is_or hr]
  apply Nat.eq_of_testBit_eq
  intro i
  simp only [Nat.testBit_or, Nat.testBit_xor, Nat.testBit_mul_pow_two]
  by_cases h : 32 ≤ i
  · have hr' : r.testBit i = false :=
      Nat.testBit_lt_two_pow (lt_of_lt_of_le hr (Nat.pow_le_pow_right (by omega) h))
    simp [h, hr', Nat.testBit_xor]
  · simp [h]

theorem shiftRight_xor_distrib (x y n : Nat) :
    (x ^^^ y) >>> n = (x >>> n) ^^^ (y >>> n) := by
  apply Nat.eq_of_testBit_eq
  intro i
  simp [Nat.testBit_shiftRight, Nat.testBit_xor]

theorem pack_mod_32 (f b : Nat) (hf : f < 2 ^ 32) : pack f b % 2 ^ 32 = f := by
  show (2 ^ 32 * b + f) % 2 ^ 32 = f
  omega

theorem pack_div_32 (f b : Nat) (hf : f < 2 ^ 32) : pack f b / 2 ^ 32 = b := by
  show (2 ^ 32 * b + f) / 2 ^ 32 = b
  omega

theorem pack_front_val (f b : Nat) (hf : f < 2 ^ 32) :
    (⟨pack f b⟩ : State).front.val = f := by
  rw [front_val, pack_mod_32 f b hf]

theorem pack_back_val (f b : Nat) (hf : f < 2 ^ 32) :
    (⟨pack f b⟩ : State).back.val = b := by
  rw [back_val, pack_div_32 f b hf]

theorem pack_frontPos (f b : Nat) : (⟨pack f b⟩ : State).front.position = f % 2 ^ 31 := by
  rw [frontPos]
  show (2 ^ 32 * b + f) % 2 ^ 31 = f % 2 ^ 31
  omega

theorem pack_backPos (f b : Nat) (hf : f < 2 ^ 32) :
    (⟨pack f b⟩ : State).back.position = b % 2 ^ 31 := by
  rw [backPos]
  show (2 ^ 32 * b + f) / 2 ^ 32 % 2 ^ 31 = b % 2 ^ 31
  omega

theorem state_is_closed_pack {f b : Nat} (hf : f < 2 ^ 31) (hb : b < 2 ^ 31) :
    State.is_closed ⟨pack f b⟩ = false := by
  have hf32 : f < 2 ^ 32 := lt_trans hf (by norm_num)
  have h31 : (pack f b).testBit 31 = false := by
    show (2 ^ 32 * b + f).testBit 31 = false
    rw [Nat.testBit_mul_pow_two_add b hf32 31]
    simp [Nat.testBit_lt_two_pow hf]
  have h63 : (pack f b).testBit 63 = false := by
    show (2 ^ 32 * b + f).testBit 63 = false
    rw [Nat.testBit_mul_pow_two_add b hf32 63]
    simp [Nat.testBit_lt_two_pow hb]
  rw [State.is_closed, ANY_CLOSE_eq, Nat.and_or_distrib_left,
    and_two_pow_eq_zero 31 h31, and_two_pow_eq_zero 63 h63]
  rfl

theorem beq_eq_decide (x y : Nat) : (x == y) = decide (x = y) := by
  by_cases h : x = y <;> simp [h]

theorem mod_sub_eq (m a b : Nat) (hm : 0 < m) (hle : b ≤ a) (hlt : a - b < m) :
    (if a % m ≥ b % m then a % m - b % m else m - b % m + a % m) = a - b := by
  have hd : b + (a - b) = a := by omega
  have h1 : a % m = (b % m + (a - b)) % m := by
    conv_lhs => rw [← hd]
    rw [Nat.add_mod, Nat.mod_eq_of_lt hlt]
  have hbm : b % m < m := Nat.mod_lt _ hm
  by_cases hc : b % m + (a - b) < m
  · have h2 : a % m = b % m + (a - b) := by rw [h1, Nat.mod_eq_of_lt hc]
    rw [h2, if_pos (by omega)]
    omega
  · push_neg at hc
    have h2 : a % m = b % m + (a - b) - m := by
      rw [h1, Nat.mod_eq_sub_mod hc, Nat.mod_eq_of_lt (by omega)]
    rw [h2, if_neg (by omega)]
    omega

theorem mod_self_eq_iff (m a b : Nat) (hm : 0 < m) (hle : b ≤ a) (hlt : a - b < m) :
    a % m = b % m ↔ a = b := by
  have hd : b + (a - b) = a := by omega
  have h1 : a % m = (b % m + (a - b)) % m := by
    conv_lhs => rw [← hd]
    rw [Nat.add_mod, Nat.mod_eq_of_lt hlt]
  have hbm : b % m < m := Nat.mod_lt _ hm
  by_cases hc : b % m + (a - b) < m
  · have h2 : a % m = b % m + (a - b) := by rw [h1, Nat.mod_eq_of_lt hc]
    omega
  · push_neg at hc
    have h2 : a % m = b % m + (a - b) - m := by
      rw [h1, Nat.mod_eq_sub_mod hc, Nat.mod_eq_of_lt (by omega)]
    omega

theorem two_cap_bound {cap : Nat} (hmax : cap ≤ MAX_CAPACITY) :
    2 * cap ≤ 2 ^ 31 - 2 := by
  have h := MAX_CAPACITY_eq ▸ hmax
  omega

theorem len_pack (cap a b : Nat) (hcap : 0 < cap) (hmax : cap ≤ MAX_CAPACITY)
    (hle : b ≤ a) (hlt : a - b ≤ cap) :
    State.len ⟨pack (a % (2 * cap)) (b % (2 * cap))⟩ cap = a - b := by
  have hm2 := two_cap_bound hmax
  have ham : a % (2 * cap) < 2 * cap := Nat.mod_lt _ (by omega)
  have hbm : b % (2 * cap) < 2 * cap := Nat.mod_lt _ (by omega)
  have hf := pack_frontPos (a % (2 * cap)) (b % (2 * cap))
  have hbk := pack_backPos (a % (2 * cap)) (b % (2 * cap)) (by omega)
  have hfa : a % (2 * cap) % 2 ^ 31 = a % (2 * cap) := Nat.mod_eq_of_lt (by omega)
  have hfb : b % (2 * cap) % 2 ^ 31 = b % (2 * cap) := Nat.mod_eq_of_lt (by omega)
  simp only [State.len, hf, hbk, hfa, hfb]
  exact mod_sub_eq (2 * cap) a b (by omega) hle (by omega)

theorem is_full_pack (cap a b : Nat) (hcap : 0 < cap) (hmax : cap ≤ MAX_CAPACITY)
    (hle : b ≤ a) (hlt : a - b ≤ cap) :
    State.is_full ⟨pack (a % (2 * cap)) (b % (2 * cap))⟩ cap = decide (a - b = cap) := by
  rw [State.is_full, len_pack cap a b hcap hmax hle hlt, beq_eq_decide]

theorem is_empty_pack (cap a b : Nat) (hcap : 0 < cap) (hmax : cap ≤ MAX_CAPACITY)
    (hle : b ≤ a) (hlt : a - b ≤ cap) :
    State.is_empty ⟨pack (a % (2 * cap)) (b % (2 * cap))⟩ = decide (a = b) := by
  have hm2 := two_cap_bound hmax
  have ham : a % (2 * cap) < 2 * cap := Nat.mod_lt _ (by omega)
  have hbm : b % (2 * cap) < 2 * cap := Nat.mod_lt _ (by omega)
  have hf := pack_frontPos (a % (2 * cap)) (b % (2 * cap))
  have hbk := pack_backPos (a % (2 * cap)) (b % (2 * cap)) (by omega)
  have hfa : a % (2 * cap) % 2 ^ 31 = a % (2 * cap) := Nat.mod_eq_of_lt (by omega)
  have hfb : b % (2 * cap) % 2 ^ 31 = b % (2 * cap) := Nat.mod_eq_of_lt (by omega)
  simp only [State.is_empty, hf, hbk, hfa, hfb, beq_eq_decide]
  by_cases h : a = b
  · simp [h]
  · simp only [decide_eq_decide]
    exact (mod_self_eq_iff (2 * cap) a b (by omega) hle (by omega)).trans (by tauto)

theorem state_is_closed_pack_mods (cap a b : Nat) (hcap : 0 < cap)
    (hmax : cap ≤ MAX_CAPACITY) :
    State.is_closed ⟨pack (a % (2 * cap)) (b % (2 * cap))⟩ = false := by
  have hm2 := two_cap_bound hmax
  have ham : a % (2 * cap) < 2 * cap := Nat.mod_lt _ (by omega)
  have hbm : b % (2 * cap) < 2 * cap := Nat.mod_lt _ (by omega)
  exact state_is_closed_pack (by omega) (by omega)

/-! ## Claim C10 -/

theorem positions_xor_S_CLOSE (s : Nat) :
    (⟨s ^^^ S_CLOSE⟩ : State).front.position = (⟨s⟩ : State).front.position
      ∧ (⟨s ^^^ S_CLOSE⟩ : State).back.position = (⟨s⟩ : State).back.position := by
  constructor
  · rw [frontPos, frontPos, S_CLOSE_eq]
    show (s ^^^ 2 ^ 31) % 2 ^ 31 = s % 2 ^ 31
    have h0 : ((2 : Nat) ^ 31) &&& (2 ^ 31 - 1) = 0 := by decide
    rw [← Nat.and_pow_two_sub_one_eq_mod, ← Nat.and_pow_two_sub_one_eq_mod,
      Nat.and_xor_distrib_right, h0, Nat.xor_zero]
  · rw [backPos, backPos, S_CLOSE_eq]
    have hdiv : (s ^^^ 2 ^ 31) / 2 ^ 32 = s / 2 ^ 32 := by
      rw [← Nat.shiftRight_eq_div_pow, ← Nat.shiftRight_eq_div_pow,
        shiftRight_xor_distrib]
      have h0 : ((2 : Nat) ^ 31) >>> 32 = 0 := by decide
      rw [h0, Nat.xor_zero]
    rw [hdiv]

theorem positions_xor_R_CLOSE (s : Nat) :
    (⟨s ^^^ R_CLOSE⟩ : State).front.position = (⟨s⟩ : State).front.position
      ∧ (⟨s ^^^ R_CLOSE⟩ : State).back.position = (⟨s⟩ : State).back.position := by
  constructor
  · rw [frontPos, frontPos, R_CLOSE_eq]
    show (s ^^^ 2 ^ 63) % 2 ^ 31 = s % 2 ^ 31
    have h0 : ((2 : Nat) ^ 63) &&& (2 ^ 31 - 1) = 0 := by decide
    rw [← Nat.and_pow_two_sub_one_eq_mod, ← Nat.and_pow_two_sub_one_eq_mod,
      Nat.and_xor_distrib_right, h0, Nat.xor_zero]
  · rw [backPos, backPos, R_CLOSE_eq]
    have hdiv : (s ^^^ 2 ^ 63) / 2 ^ 32 = s / 2 ^ 32 ^^^ 2 ^ 31 := by
      rw [← Nat.shiftRight_eq_div_pow, ← Nat.shiftRight_eq_div_pow,
        shiftRight_xor_distrib]
      have h0 : ((2 : Nat) ^ 63) >>> 32 = 2 ^ 31 := by decide
      rw [h0]
    rw [hdiv]
    show (s / 2 ^ 32 ^^^ 2 ^ 31) % 2 ^ 31 = s / 2 ^ 32 % 2 ^ 31
    have h0 : ((2 : Nat) ^ 31) &&& (2 ^ 31 - 1) = 0 := by decide
    rw [← Nat.and_pow_two_sub_one_eq_mod, ← Nat.and_pow_two_sub_one_eq_mod,
      Nat.and_xor_distrib_right, h0, Nat.xor_zero]

theorem derived_eq_of_pos_eq (x y : State) (cap : Nat)
    (hf : x.front.position = y.front.position)
    (hb : x.back.position = y.back.position) :
    x.is_empty = y.is_empty ∧ x.is_full cap = y.is_full cap
      ∧ x.len cap = y.len cap ∧ x.space cap = y.space cap := by
  have hlen : x.len cap = y.len cap := by simp only [State.len, hf, hb]
  exact ⟨by simp only [State.is_empty, hf, hb],
    by simp only [State.is_full, hlen],
    hlen,
    by simp only [State.space, hlen]⟩

/-- Claim C10: toggling either close bit of a state word (the effect of a
close `fetch_xor`, which both sets a clear bit and clears a set one)
leaves `is_empty`, `is_full`, `len` and `space` unchanged: they depend
only on the two cursor positions with the high bits masked off. -/
theorem derived_quantities_close_invariant (s cap : Nat) :
    (State.is_empty ⟨s ^^^ S_CLOSE⟩ = State.is_empty ⟨s⟩
      ∧ State.is_full ⟨s ^^^ S_CLOSE⟩ cap = State.is_full ⟨s⟩ cap
      ∧ State.len ⟨s ^^^ S_CLOSE⟩ cap = State.len ⟨s⟩ cap
      ∧ State.space ⟨s ^^^ S_CLOSE⟩ cap = State.space ⟨s⟩ cap)
    ∧ (State.is_empty ⟨s ^^^ R_CLOSE⟩ = State.is_empty ⟨s⟩
      ∧ State.is_full ⟨s ^^^ R_CLOSE⟩ cap = State.is_full ⟨s⟩ cap
      ∧ State.len ⟨s ^^^ R_CLOSE⟩ cap = State.len ⟨s⟩ cap
      ∧ State.space ⟨s ^^^ R_CLOSE⟩ cap = State.space ⟨s⟩ cap) :=
  ⟨derived_eq_of_pos_eq _ _ cap (positions_xor_S_CLOSE s).1 (positions_xor_S_CLOSE s).2,
    derived_eq_of_pos_eq _ _ cap (positions_xor_R_CLOSE s).1 (positions_xor_R_CLOSE s).2⟩

/-! ## Claim C9 -/

/-- Claim C9: `spsc(capacity)` panics exactly when `capacity == 0` or
`capacity > MAX_CAPACITY` (`2^30 - 1` on a 64-bit platform); for every
in-range capacity it returns the two handles over one freshly zeroed
control block: both cursors at position 0 and both close bits clear. -/
theorem spsc_validation (T : Type) (cap : Nat) :
    (spsc T cap = none ↔ (cap = 0 ∨ MAX_CAPACITY < cap))
      ∧ ∀ c : Created T, spsc T cap = some c →
          c.cap = cap ∧ c.senderCache = 0 ∧ c.receiverCache = 0 ∧ c.chan.state = 0
            ∧ (⟨c.chan.state⟩ : State).is_closed = false
            ∧ (⟨c.chan.state⟩ : State).front.position = 0
            ∧ (⟨c.chan.state⟩ : State).back.position = 0
            ∧ c.chan.buf = List.replicate cap none := by
  constructor
  · by_cases h : cap > 0 ∧ cap ≤ MAX_CAPACITY
    · simp only [spsc, if_pos h]
      constructor
      · intro hc
        exact absurd hc (by simp)
      · intro hc
        omega
    · simp only [spsc, if_neg h]
      constructor
      · intro _
        omega
      · intro _
        trivial
  · intro c hc
    by_cases h : cap > 0 ∧ cap ≤ MAX_CAPACITY
    · rw [spsc, if_pos h, Option.some_inj] at hc
      subst hc
      refine ⟨rfl, rfl, rfl, rfl, ?_, ?_, ?_, rfl⟩
      · show State.is_closed ⟨0⟩ = false
        decide
      · show HalfState.position (State.front ⟨0⟩) = 0
        decide
      · show HalfState.position (State.back ⟨0⟩) = 0
        decide
    · rw [spsc, if_neg h] at hc
      exact absurd hc (by simp)

/-! ## Path lemmas for the non-suspending send and receive -/

theorem sendNow_closed {T : Type} [Inhabited T] {cap sc a : Nat}
    {buf : List (Option T)} {v : T} (h : (⟨sc⟩ : State).is_closed = true) :
    sendNow cap sc a buf v = ⟨.error ⟨.Closed, v⟩, sc, a, buf⟩ := by
  simp [sendNow, h]

theorem sendNow_direct {T : Type} [Inhabited T] {cap sc a : Nat}
    {buf : List (Option T)} {v : T} (h1 : (⟨sc⟩ : State).is_closed = false)
    (h2 : (⟨sc⟩ : State).is_full cap = false) :
    sendNow cap sc a buf v = sendCommit cap sc a buf v := by
  simp [sendNow, h1, h2]

theorem sendNow_refresh_closed {T : Type} [Inhabited T] {cap sc a : Nat}
    {buf : List (Option T)} {v : T} (h1 : (⟨sc⟩ : State).is_closed = false)
    (h2 : (⟨sc⟩ : State).is_full cap = true)
    (h3 : (⟨a⟩ : State).is_closed = true) :
    sendNow cap sc a buf v = ⟨.error ⟨.Closed, v⟩, a, a, buf⟩ := by
  simp [sendNow, h1, h2, h3]

theorem sendNow_refresh_full {T : Type} [Inhabited T] {cap sc a : Nat}
    {buf : List (Option T)} {v : T} (h1 : (⟨sc⟩ : State).is_closed = false)
    (h2 : (⟨sc⟩ : State).is_full cap = true)
    (h3 : (⟨a⟩ : State).is_closed = false)
    (h4 : (⟨a⟩ : State).is_full cap = true) :
    sendNow cap sc a buf v = ⟨.error ⟨.Full, v⟩, a, a, buf⟩ := by
  simp [sendNow, h1, h2, h3, h4]

theorem sendNow_refresh_commit {T : Type} [Inhabited T] {cap sc a : Nat}
    {buf : List (Option T)} {v : T} (h1 : (⟨sc⟩ : State).is_closed = false)
    (h2 : (⟨sc⟩ : State).is_full cap = true)
    (h3 : (⟨a⟩ : State).is_closed = false)
    (h4 : (⟨a⟩ : State).is_full cap = false) :
    sendNow cap sc a buf v = sendCommit cap a a buf v := by
  simp [sendNow, h1, h2, h3, h4]

theorem sendCommit_open_eq {T : Type} [Inhabited T] (cap cache atomic : Nat)
    (buf : List (Option T)) (v : T)
    (h : State.is_closed ⟨atomic ^^^ ((⟨cache⟩ : State).front.val
        ^^^ ((⟨cache⟩ : State).front.advance cap 1).val)⟩ = false) :
    sendCommit cap cache atomic buf v =
      ⟨.ok (),
        atomic ^^^ ((⟨cache⟩ : State).front.val
          ^^^ ((⟨cache⟩ : State).front.advance cap 1).val),
        atomic ^^^ ((⟨cache⟩ : State).front.val
          ^^^ ((⟨cache⟩ : State).front.advance cap 1).val),
        buf.set ((⟨cache⟩ : State).front.position % cap) (some v)⟩ := by
  simp [sendCommit, h]

theorem sendCommit_closed_eq {T : Type} [Inhabited T] (cap cache atomic : Nat)
    (buf : List (Option T)) (v : T)
    (h : State.is_closed ⟨atomic ^^^ ((⟨cache⟩ : State).front.val
        ^^^ ((⟨cache⟩ : State).front.advance cap 1).val)⟩ = true) :
    sendCommit cap cache atomic buf v =
      ⟨.error ⟨.Closed,
          slotRead (buf.set ((⟨cache⟩ : State).front.position % cap) (some v))
            ((⟨cache⟩ : State).front.position % cap)⟩,
        ((atomic ^^^ ((⟨cache⟩ : State).front.val
            ^^^ ((⟨cache⟩ : State).front.advance cap 1).val)) &&& BACK)
          ||| (⟨cache⟩ : State).front.val,
        atomic ^^^ ((⟨cache⟩ : State).front.val
          ^^^ ((⟨cache⟩ : State).front.advance cap 1).val),
        (buf.set ((⟨cache⟩ : State).front.position % cap) (some v)).set
          ((⟨cache⟩ : State).front.position % cap) none⟩ := by
  simp [sendCommit, h]

theorem receiveNow_cache_nonempty {T : Type} [Inhabited T] {cap rc a : Nat}
    {buf : List (Option T)} (h : (⟨rc⟩ : State).is_empty = false) :
    receiveNow T cap rc a buf = recvCommit cap rc a buf := by
  simp [receiveNow, h]

theorem receiveNow_empty_closed {T : Type} [Inhabited T] {cap rc a : Nat}
    {buf : List (Option T)} (h1 : (⟨rc⟩ : State).is_empty = true)
    (h2 : (⟨rc⟩ : State).is_closed = true) :
    receiveNow T cap rc a buf = ⟨.error ⟨⟩, rc, a, buf⟩ := by
  simp [receiveNow, h1, h2]

theorem receiveNow_reload_commit {T : Type} [Inhabited T] {cap rc a : Nat}
    {buf : List (Option T)} (h1 : (⟨rc⟩ : State).is_empty = true)
    (h2 : (⟨rc⟩ : State).is_closed = false)
    (h3 : (⟨a⟩ : State).is_empty = false) :
    receiveNow T cap rc a buf = recvCommit cap a a buf := by
  simp [receiveNow, h1, h2, h3]

theorem receiveNow_reload_empty_closed {T : Type} [Inhabited T] {cap rc a : Nat}
    {buf : List (Option T)} (h1 : (⟨rc⟩ : State).is_empty = true)
    (h2 : (⟨rc⟩ : State).is_closed = false)
    (h3 : (⟨a⟩ : State).is_empty = true)
    (h4 : (⟨a⟩ : State).is_closed = true) :
    receiveNow T cap rc a buf = ⟨.error ⟨⟩, a, a, buf⟩ := by
  simp [receiveNow, h1, h2, h3, h4]

theorem receiveNow_reload_empty_open {T : Type} [Inhabited T] {cap rc a : Nat}
    {buf : List (Option T)} (h1 : (⟨rc⟩ : State).is_empty = true)
    (h2 : (⟨rc⟩ : State).is_closed = false)
    (h3 : (⟨a⟩ : State).is_empty = true)
    (h4 : (⟨a⟩ : State).is_closed = false) :
    receiveNow T cap rc a buf = ⟨.ok none, a, a, buf⟩ := by
  simp [receiveNow, h1, h2, h3, h4]

theorem recvCommit_eq {T : Type} [Inhabited T] (cap observed atomic : Nat)
    (buf : List (Option T)) :
    recvCommit cap observed atomic buf =
      ⟨.ok (some (slotRead buf ((⟨observed⟩ : State).back.index cap))),
        atomic ^^^ (((⟨observed⟩ : State).back.val
          ^^^ ((⟨observed⟩ : State).back.advance cap 1).val) <<< BITS),
        atomic ^^^ (((⟨observed⟩ : State).back.val
          ^^^ ((⟨observed⟩ : State).back.advance cap 1).val) <<< BITS),
        buf.set ((⟨observed⟩ : State).back.index cap) none⟩ := rfl

/-! ## Claim C7 -/

/-- Claim C7: the non-suspending receive returns `Err(Closed)` only when
the observed state (the cache, or the freshly reloaded atomic) is both
empty and has a close bit set; whenever the observed state is non-empty
it returns `Ok(Some v)` even if the producer has closed; and it returns
`Ok(None)` only when the freshly reloaded atomic state is empty with no
close bit set. -/
theorem receive_closed_empty_conditions (T : Type) [Inhabited T]
    (cap rc a : Nat) (buf : List (Option T)) :
    ((receiveNow T cap rc a buf).res = .error ⟨⟩ →
        ((⟨rc⟩ : State).is_empty = true ∧ (⟨rc⟩ : State).is_closed = true)
          ∨ ((⟨a⟩ : State).is_empty = true ∧ (⟨a⟩ : State).is_closed = true))
      ∧ ((⟨rc⟩ : State).is_empty = false
            ∨ ((⟨rc⟩ : State).is_closed = false ∧ (⟨a⟩ : State).is_empty = false) →
          ∃ v, (receiveNow T cap rc a buf).res = .ok (some v))
      ∧ ((receiveNow T cap rc a buf).res = .ok none →
          (⟨a⟩ : State).is_empty = true ∧ (⟨a⟩ : State).is_closed = false) := by
  cases h1 : (⟨rc⟩ : State).is_empty
  · rw [receiveNow_cache_nonempty h1, recvCommit_eq]
    exact ⟨fun hc => absurd hc (by simp), fun _ => ⟨_, rfl⟩, fun hc => absurd hc (by simp)⟩
  · cases h2 : (⟨rc⟩ : State).is_closed
    · cases h3 : (⟨a⟩ : State).is_empty
      · rw [receiveNow_reload_commit h1 h2 h3, recvCommit_eq]
        exact ⟨fun hc => absurd hc (by simp), fun _ => ⟨_, rfl⟩,
          fun hc => absurd hc (by simp)⟩
      · cases h4 : (⟨a⟩ : State).is_closed
        · rw [receiveNow_reload_empty_open h1 h2 h3 h4]
          refine ⟨fun hc => absurd hc (by simp), ?_, fun _ => ⟨rfl, rfl⟩⟩
          rintro (hne | ⟨_, hne⟩) <;> simp at hne
        · rw [receiveNow_reload_empty_closed h1 h2 h3 h4]
          refine ⟨fun _ => .inr ⟨rfl, rfl⟩, ?_, fun hc => absurd hc (by simp)⟩
          rintro (hne | ⟨_, hne⟩) <;> simp at hne
    · rw [receiveNow_empty_closed h1 h2]
      refine ⟨fun _ => .inl ⟨rfl, rfl⟩, ?_, fun hc => absurd hc (by simp)⟩
      rintro (hne | ⟨hne, _⟩) <;> simp at hne

/-! ## Word-level effect of the cursor-advance fetch-xor -/

theorem halfState_eq_of_val {x y : HalfState} (h : x.val = y.val) : x = y := by
  cases x
  cases y
  cases h
  rfl

theorem front_val_lt (s : State) : s.front.val < 2 ^ 32 := by
  rw [front_val]
  exact Nat.mod_lt _ (by norm_num)

theorem advance_val_lt (h : HalfState) (cap k : Nat) :
    (h.advance cap k).val < 2 ^ 32 := by
  show ((h.val + k) % 2 ^ BITS) % (2 * cap) < 2 ^ 32
  have h1 : (h.val + k) % 2 ^ BITS < 2 ^ 32 := Nat.mod_lt _ (by norm_num)
  exact lt_of_le_of_lt (Nat.mod_le _ _) h1

theorem front_xor_low (a m : Nat) (hm : m < 2 ^ 32) :
    (⟨a ^^^ m⟩ : State).front.val = (⟨a⟩ : State).front.val ^^^ m := by
  have hq : 2 ^ 32 * (a / 2 ^ 32) + a % 2 ^ 32 = a := Nat.div_add_mod a (2 ^ 32)
  have h1 : a ^^^ m = 2 ^ 32 * (a / 2 ^ 32) + (a % 2 ^ 32 ^^^ m) := by
    conv_lhs => rw [← hq]
    exact xor_low_split _ _ m (Nat.mod_lt _ (by norm_num)) hm
  have hx : a % 2 ^ 32 ^^^ m < 2 ^ 32 :=
    Nat.xor_lt_two_pow (Nat.mod_lt _ (by norm_num)) hm
  rw [front_val, front_val]
  show (a ^^^ m) % 2 ^ 32 = a % 2 ^ 32 ^^^ m
  rw [h1]
  omega

theorem back_xor_low (a m : Nat) (hm : m < 2 ^ 32) :
    (⟨a ^^^ m⟩ : State).back.val = (⟨a⟩ : State).back.val := by
  have hq : 2 ^ 32 * (a / 2 ^ 32) + a % 2 ^ 32 = a := Nat.div_add_mod a (2 ^ 32)
  have h1 : a ^^^ m = 2 ^ 32 * (a / 2 ^ 32) + (a % 2 ^ 32 ^^^ m) := by
    conv_lhs => rw [← hq]
    exact xor_low_split _ _ m (Nat.mod_lt _ (by norm_num)) hm
  have hx : a % 2 ^ 32 ^^^ m < 2 ^ 32 :=
    Nat.xor_lt_two_pow (Nat.mod_lt _ (by norm_num)) hm
  rw [back_val, back_val]
  show (a ^^^ m) / 2 ^ 32 = a / 2 ^ 32
  rw [h1]
  omega

theorem front_xor_high (a m : Nat) :
    (⟨a ^^^ (m <<< 32)⟩ : State).front.val = (⟨a⟩ : State).front.val := by
  have hq : 2 ^ 32 * (a / 2 ^ 32) + a % 2 ^ 32 = a := Nat.div_add_mod a (2 ^ 32)
  have h1 : a ^^^ (m <<< 32) = 2 ^ 32 * (a / 2 ^ 32 ^^^ m) + a % 2 ^ 32 := by
    conv_lhs => rw [← hq]
    exact xor_high_split _ _ m (Nat.mod_lt _ (by norm_num))
  rw [front_val, front_val]
  show (a ^^^ (m <<< 32)) % 2 ^ 32 = a % 2 ^ 32
  rw [h1]
  omega

theorem back_xor_high (a m : Nat) :
    (⟨a ^^^ (m <<< 32)⟩ : State).back.val = (⟨a⟩ : State).back.val ^^^ m := by
  have hq : 2 ^ 32 * (a / 2 ^ 32) + a % 2 ^ 32 = a := Nat.div_add_mod a (2 ^ 32)
  have h1 : a ^^^ (m <<< 32) = 2 ^ 32 * (a / 2 ^ 32 ^^^ m) + a % 2 ^ 32 := by
    conv_lhs => rw [← hq]
    exact xor_high_split _ _ m (Nat.mod_lt _ (by norm_num))
  rw [back_val, back_val]
  show (a ^^^ (m <<< 32)) / 2 ^ 32 = a / 2 ^ 32 ^^^ m
  rw [h1]
  omega

theorem BACK_testBit (j : Nat) : BACK.testBit j = (decide (32 ≤ j) && decide (j < 64)) := by
  have h : BACK = 2 ^ 32 * (2 ^ 32 - 1) := by decide
  rw [h, Nat.testBit_mul_pow_two, Nat.testBit_two_pow_sub_one]
  have he : decide (j - 32 < 32) = decide (j < 64) := by
    rw [decide_eq_decide]
    omega
  rw [he]

theorem rewound_front_val (x f : Nat) (hf : f < 2 ^ 32) :
    ((x &&& BACK) ||| f) &&& FRONT = f := by
  apply Nat.eq_of_testBit_eq
  intro i
  simp only [Nat.testBit_and, Nat.testBit_or]
  have hB := BACK_testBit i
  have hFval : FRONT = 2 ^ 32 - 1 := FRONT_eq
  rw [hB, hFval, Nat.testBit_two_pow_sub_one]
  by_cases h32 : i < 32
  · have : ¬ 32 ≤ i := by omega
    simp [h32, this]
  · have hfi : f.testBit i = false :=
      Nat.testBit_lt_two_pow (lt_of_lt_of_le hf (Nat.pow_le_pow_right (by omega) (by omega)))
    simp [h32, hfi]

theorem rewound_back_div (x f : Nat) (hx : x < 2 ^ 64) (hf : f < 2 ^ 32) :
    ((x &&& BACK) ||| f) / 2 ^ 32 = x / 2 ^ 32 := by
  rw [← Nat.shiftRight_eq_div_pow, ← Nat.shiftRight_eq_div_pow]
  apply Nat.eq_of_testBit_eq
  intro i
  simp only [Nat.testBit_shiftRight, Nat.testBit_and, Nat.testBit_or]
  have hB := BACK_testBit (32 + i)
  have hfi : f.testBit (32 + i) = false :=
    Nat.testBit_lt_two_pow (lt_of_lt_of_le hf (Nat.pow_le_pow_right (by omega) (by omega)))
  rw [hB, hfi]
  by_cases h : i < 32
  · simp [show 32 ≤ 32 + i by omega, show 32 + i < 64 by omega]
  · have hxi : x.testBit (32 + i) = false :=
      Nat.testBit_lt_two_pow (lt_of_lt_of_le hx (Nat.pow_le_pow_right (by omega) (by omega)))
    simp [hxi, show ¬ 32 + i < 64 by omega]

theorem slotRead_set {T : Type} [Inhabited T] (buf : List (Option T)) (i : Nat)
    (v : T) (h : i < buf.length) :
    slotRead (buf.set i (some v)) i = v := by
  rw [slotRead, List.getD_eq_getElem?_getD, List.getElem?_set_self (by simpa using h)]
  rfl

/-! ## Claim C6 -/

theorem sendCommit_conclusions (T : Type) [Inhabited T] (cap c a : Nat)
    (buf : List (Option T)) (v : T) (hcap : 0 < cap) (hlen : buf.length = cap)
    (hfr : (⟨c⟩ : State).front = (⟨a⟩ : State).front) :
    (∀ w, (sendCommit cap c a buf v).res ≠ .error ⟨.Full, w⟩)
      ∧ ((sendCommit cap c a buf v).res = .ok () →
          (sendCommit cap c a buf v).buf[(⟨a⟩ : State).front.position % cap]?
              = some (some v)
            ∧ (⟨(sendCommit cap c a buf v).atomic⟩ : State).front
                = (⟨a⟩ : State).front.advance cap 1) := by
  have hmlt : (⟨c⟩ : State).front.val ^^^ ((⟨c⟩ : State).front.advance cap 1).val
      < 2 ^ 32 :=
    Nat.xor_lt_two_pow (front_val_lt _) (advance_val_lt _ _ _)
  cases hpost : State.is_closed ⟨a ^^^ ((⟨c⟩ : State).front.val
      ^^^ ((⟨c⟩ : State).front.advance cap 1).val)⟩
  · rw [sendCommit_open_eq cap c a buf v hpost]
    refine ⟨fun w hw => absurd hw (by simp), fun _ => ⟨?_, ?_⟩⟩
    · rw [hfr]
      show (buf.set ((⟨a⟩ : State).front.position % cap)
          (some v))[(⟨a⟩ : State).front.position % cap]? = some (some v)
      exact List.getElem?_set_self (by rw [hlen]; exact Nat.mod_lt _ hcap)
    · apply halfState_eq_of_val
      show (⟨a ^^^ ((⟨c⟩ : State).front.val
          ^^^ ((⟨c⟩ : State).front.advance cap 1).val)⟩ : State).front.val = _
      rw [front_xor_low _ _ hmlt, hfr, ← Nat.xor_assoc, Nat.xor_self, Nat.zero_xor]
  · rw [sendCommit_closed_eq cap c a buf v hpost]
    exact ⟨fun w hw => absurd hw (by simp), fun hw => absurd hw (by simp)⟩

/-- Claim C6: the non-suspending send returns `Full(w)` only with
`w` the original value and only when the freshly reloaded atomic state
had `length == capacity`; and it returns `Ok` only after the value has
been written into the slot at `front.pos mod capacity` and the atomic
front cursor has been advanced by one.  (`hfr` is the protocol invariant
that the sender's cached front half — which only the sender ever
writes — agrees with the atomic's front half.) -/
theorem send_full_and_ok_conditions (T : Type) [Inhabited T] (cap sc a : Nat)
    (buf : List (Option T)) (v : T) (hcap : 0 < cap) (hlen : buf.length = cap)
    (hfr : (⟨sc⟩ : State).front = (⟨a⟩ : State).front) :
    (∀ w, (sendNow cap sc a buf v).res = .error ⟨.Full, w⟩ →
        w = v ∧ (⟨a⟩ : State).is_full cap = true)
      ∧ ((sendNow cap sc a buf v).res = .ok () →
          (sendNow cap sc a buf v).buf[(⟨a⟩ : State).front.position % cap]?
              = some (some v)
            ∧ (⟨(sendNow cap sc a buf v).atomic⟩ : State).front
                = (⟨a⟩ : State).front.advance cap 1) := by
  cases hc1 : (⟨sc⟩ : State).is_closed
  · cases hc2 : (⟨sc⟩ : State).is_full cap
    · rw [sendNow_direct hc1 hc2]
      have h := sendCommit_conclusions T cap sc a buf v hcap hlen hfr
      exact ⟨fun w hw => absurd hw (h.1 w), h.2⟩
    · cases hc3 : (⟨a⟩ : State).is_closed
      · cases hc4 : (⟨a⟩ : State).is_full cap
        · rw [sendNow_refresh_commit hc1 hc2 hc3 hc4]
          have h := sendCommit_conclusions T cap a a buf v hcap hlen rfl
          exact ⟨fun w hw => absurd hw (h.1 w), h.2⟩
        · rw [sendNow_refresh_full hc1 hc2 hc3 hc4]
          refine ⟨fun w hw => ?_, fun hw => absurd hw (by simp)⟩
          simp only [Except.error.injEq, SendError.mk.injEq] at hw
          exact ⟨hw.2.symm, rfl⟩
      · rw [sendNow_refresh_closed hc1 hc2 hc3]
        exact ⟨fun w hw => absurd hw (by simp), fun hw => absurd hw (by simp)⟩
  · rw [sendNow_closed hc1]
    exact ⟨fun w hw => absurd hw (by simp), fun hw => absurd hw (by simp)⟩

/-- Witness for `send_full_and_ok_conditions` at `cap = 1`, a fresh
channel and `v = 42`. -/
theorem send_full_and_ok_conditions_witness :
    0 < 1 ∧ ([(none : Option Nat)] : List (Option Nat)).length = 1
      ∧ (⟨0⟩ : State).front = (⟨0⟩ : State).front
      ∧ ((∀ w, (sendNow 1 0 0 [(none : Option Nat)] 42).res = .error ⟨.Full, w⟩ →
            w = 42 ∧ (⟨0⟩ : State).is_full 1 = true)
          ∧ ((sendNow 1 0 0 [(none : Option Nat)] 42).res = .ok () →
              (sendNow 1 0 0 [(none : Option Nat)] 42).buf[(⟨0⟩ : State).front.position % 1]?
                  = some (some 42)
                ∧ (⟨(sendNow 1 0 0 [(none : Option Nat)] 42).atomic⟩ : State).front
                    = (⟨0⟩ : State).front.advance 1 1)) :=
  ⟨by decide, by decide, rfl,
    send_full_and_ok_conditions Nat 1 0 0 [none] 42 (by decide) (by decide) rfl⟩

/-! ## Claim C4 -/

/-- Claim C4: when the post-commit word returned by the front-advancing
fetch-xor shows a close bit, the non-suspending send returns
`Closed(v)` with `v` exactly the value just written into slot
`front.pos mod capacity` (recovered from that slot, which becomes
logically uninitialised again), the shared atomic has seen exactly the
one commit RMW and nothing further, and the sender's cache is rewound:
its front half is again the pre-advance front while its back half is the
post-RMW back — so the slot just vacated is no longer inside the cached
`[back.pos, front.pos)` in-flight range that the sender's drop-time
cleanup walks. -/
theorem send_commit_closed_rewind (T : Type) [Inhabited T] (cap sc a : Nat)
    (buf : List (Option T)) (v : T)
    (hcap : 0 < cap) (hlen : buf.length = cap) (ha64 : a < 2 ^ 64)
    (hnc : (⟨sc⟩ : State).is_closed = false)
    (hst : (⟨sc⟩ : State).is_full cap = true →
      (⟨a⟩ : State).is_closed = false ∧ (⟨a⟩ : State).is_full cap = false) :
    ∀ st, st = (if (⟨sc⟩ : State).is_full cap then a else sc) →
    State.is_closed ⟨a ^^^ ((⟨st⟩ : State).front.val
        ^^^ ((⟨st⟩ : State).front.advance cap 1).val)⟩ = true →
    sendNow cap sc a buf v =
        ⟨.error ⟨.Closed, v⟩,
          ((a ^^^ ((⟨st⟩ : State).front.val
              ^^^ ((⟨st⟩ : State).front.advance cap 1).val)) &&& BACK)
            ||| (⟨st⟩ : State).front.val,
          a ^^^ ((⟨st⟩ : State).front.val
            ^^^ ((⟨st⟩ : State).front.advance cap 1).val),
          (buf.set ((⟨st⟩ : State).front.position % cap) (some v)).set
            ((⟨st⟩ : State).front.position % cap) none⟩
      ∧ (⟨(sendNow cap sc a buf v).cache⟩ : State).front = (⟨st⟩ : State).front
      ∧ (⟨(sendNow cap sc a buf v).cache⟩ : State).back
          = (⟨(sendNow cap sc a buf v).atomic⟩ : State).back := by
  intro st hstdef hpost
  have hmlt : ∀ c : Nat, (⟨c⟩ : State).front.val
      ^^^ ((⟨c⟩ : State).front.advance cap 1).val < 2 ^ 32 :=
    fun c => Nat.xor_lt_two_pow (front_val_lt _) (advance_val_lt _ _ _)
  have hx64 : a ^^^ ((⟨st⟩ : State).front.val
      ^^^ ((⟨st⟩ : State).front.advance cap 1).val) < 2 ^ 64 :=
    Nat.xor_lt_two_pow ha64 (lt_trans (hmlt st) (by norm_num))
  have hidx : (⟨st⟩ : State).front.position % cap < buf.length := by
    rw [hlen]
    exact Nat.mod_lt _ hcap
  have hpath : sendNow cap sc a buf v = sendCommit cap st a buf v := by
    cases hfull : (⟨sc⟩ : State).is_full cap
    · have hsteq : st = sc := by
        rw [hstdef, hfull]
        simp
      rw [hsteq]
      exact sendNow_direct hnc hfull
    · have hsteq : st = a := by
        rw [hstdef, hfull]
        simp
      obtain ⟨hac, haf⟩ := hst hfull
      rw [hsteq]
      exact sendNow_refresh_commit hnc hfull hac haf
  rw [hpath, sendCommit_closed_eq cap st a buf v hpost]
  refine ⟨?_, ?_, ?_⟩
  · rw [slotRead_set _ _ _ hidx]
  · apply halfState_eq_of_val
    show (((a ^^^ ((⟨st⟩ : State).front.val
        ^^^ ((⟨st⟩ : State).front.advance cap 1).val)) &&& BACK)
          ||| (⟨st⟩ : State).front.val) &&& FRONT = (⟨st⟩ : State).front.val
    exact rewound_front_val _ _ (front_val_lt _)
  · apply halfState_eq_of_val
    rw [back_val, back_val]
    exact rewound_back_div _ _ hx64 (front_val_lt _)

/-- Witness for `send_commit_closed_rewind` at `cap = 1`, sender cache
`0`, atomic `R_CLOSE` (receiver just closed), `v = 42`. -/
theorem send_commit_closed_rewind_witness :
    0 < 1 ∧ ([(none : Option Nat)] : List (Option Nat)).length = 1
      ∧ 2 ^ 63 < 2 ^ 64
      ∧ (⟨0⟩ : State).is_closed = false
      ∧ ((⟨0⟩ : State).is_full 1 = true →
          (⟨2 ^ 63⟩ : State).is_closed = false ∧ (⟨2 ^ 63⟩ : State).is_full 1 = false)
      ∧ (0 : Nat) = (if (⟨0⟩ : State).is_full 1 then 2 ^ 63 else 0)
      ∧ State.is_closed ⟨2 ^ 63 ^^^ ((⟨0⟩ : State).front.val
          ^^^ ((⟨0⟩ : State).front.advance 1 1).val)⟩ = true
      ∧ (sendNow 1 0 (2 ^ 63) [(none : Option Nat)] 42 =
          ⟨.error ⟨.Closed, 42⟩,
            ((2 ^ 63 ^^^ ((⟨0⟩ : State).front.val
                ^^^ ((⟨0⟩ : State).front.advance 1 1).val)) &&& BACK)
              ||| (⟨0⟩ : State).front.val,
            2 ^ 63 ^^^ ((⟨0⟩ : State).front.val
              ^^^ ((⟨0⟩ : State).front.advance 1 1).val),
            ([(none : Option Nat)].set ((⟨0⟩ : State).front.position % 1)
                (some 42)).set ((⟨0⟩ : State).front.position % 1) none⟩
        ∧ (⟨(sendNow 1 0 (2 ^ 63) [(none : Option Nat)] 42).cache⟩ : State).front
            = (⟨0⟩ : State).front
        ∧ (⟨(sendNow 1 0 (2 ^ 63) [(none : Option Nat)] 42).cache⟩ : State).back
            = (⟨(sendNow 1 0 (2 ^ 63) [(none : Option Nat)] 42).atomic⟩ : State).back) :=
  ⟨by decide, by decide, by decide, by decide, by decide, by decide, by decide,
    send_commit_closed_rewind Nat 1 0 (2 ^ 63) [none] 42 (by decide) (by decide)
      (by decide) (by decide) (by decide) 0 (by decide) (by decide)⟩

/-! ## Claim C1: the operational invariant -/

theorem take_append_left {α : Type} (l₁ l₂ : List α) (n : Nat) (h : n ≤ l₁.length) :
    (l₁ ++ l₂).take n = l₁.take n := by
  induction l₁ generalizing n with
  | nil =>
    simp at h
    subst h
    simp
  | cons a t ih =>
    cases n with
    | zero => simp
    | succ n =>
      simp only [List.cons_append, List.take_succ_cons]
      rw [ih n (by simpa using h)]

theorem one_lt_two_cap {cap : Nat} (hcap : 0 < cap) : 1 < 2 * cap := by omega

theorem succ_mod_shift (x n : Nat) (hn : 1 < n) : (x % n + 1) % n = (x + 1) % n := by
  conv_rhs => rw [Nat.add_mod, Nat.mod_eq_of_lt hn]

theorem sendCommit_packed (T : Type) [Inhabited T] (cap S R : Nat) (c : Nat)
    (buf : List (Option T)) (v : T)
    (hcap : 0 < cap) (hmax : cap ≤ MAX_CAPACITY)
    (hc : (⟨c⟩ : State).front = ⟨S % (2 * cap)⟩) :
    sendCommit cap c (pack (S % (2 * cap)) (R % (2 * cap))) buf v
      = ⟨.ok (), pack ((S + 1) % (2 * cap)) (R % (2 * cap)),
          pack ((S + 1) % (2 * cap)) (R % (2 * cap)), buf.set (S % cap) (some v)⟩ := by
  have hm2 := two_cap_bound hmax
  have hm0 : 0 < 2 * cap := by omega
  have hSm : S % (2 * cap) < 2 * cap := Nat.mod_lt _ hm0
  have hcv : (⟨c⟩ : State).front.val = S % (2 * cap) := by rw [hc]
  have hcpos : (⟨c⟩ : State).front.position = S % (2 * cap) := by
    rw [position_eq_mod, hcv]
    exact Nat.mod_eq_of_lt (by omega)
  have hadv : ((⟨c⟩ : State).front.advance cap 1).val = (S + 1) % (2 * cap) := by
    show (((⟨c⟩ : State).front.val + 1) % 2 ^ BITS) % (2 * cap) = _
    rw [hcv, show (2 : Nat) ^ BITS = 2 ^ 32 from rfl,
      Nat.mod_eq_of_lt (show S % (2 * cap) + 1 < 2 ^ 32 by omega)]
    exact succ_mod_shift S (2 * cap) (one_lt_two_cap hcap)
  have hmask_lt : (⟨c⟩ : State).front.val ^^^ ((⟨c⟩ : State).front.advance cap 1).val
      < 2 ^ 32 :=
    Nat.xor_lt_two_pow (front_val_lt _) (advance_val_lt _ _ _)
  have hmask_eq : pack (S % (2 * cap)) (R % (2 * cap))
        ^^^ ((⟨c⟩ : State).front.val ^^^ ((⟨c⟩ : State).front.advance cap 1).val)
      = pack ((S + 1) % (2 * cap)) (R % (2 * cap)) := by
    rw [hcv, hadv]
    show 2 ^ 32 * (R % (2 * cap)) + S % (2 * cap)
        ^^^ (S % (2 * cap) ^^^ (S + 1) % (2 * cap)) = _
    rw [xor_low_split _ _ _ (by omega)
        (Nat.xor_lt_two_pow (by omega) (lt_of_lt_of_le (Nat.mod_lt _ hm0) (by omega))),
      ← Nat.xor_assoc, Nat.xor_self, Nat.zero_xor]
    rfl
  have hpost : State.is_closed ⟨pack (S % (2 * cap)) (R % (2 * cap))
      ^^^ ((⟨c⟩ : State).front.val ^^^ ((⟨c⟩ : State).front.advance cap 1).val)⟩
      = false := by
    rw [hmask_eq]
    exact state_is_closed_pack_mods cap (S + 1) R hcap hmax
  rw [sendCommit_open_eq _ _ _ _ _ hpost, hmask_eq]
  have hidx : (⟨c⟩ : State).front.position % cap = S % cap := by
    rw [hcpos, Nat.mod_mod_of_dvd _ (dvd_mul_left cap 2)]
  rw [hidx]

theorem recvCommit_packed (T : Type) [Inhabited T] (cap S R : Nat) (c : Nat)
    (buf : List (Option T))
    (hcap : 0 < cap) (hmax : cap ≤ MAX_CAPACITY)
    (hc : (⟨c⟩ : State).back = ⟨R % (2 * cap)⟩) :
    recvCommit cap c (pack (S % (2 * cap)) (R % (2 * cap))) buf
      = ⟨.ok (some (slotRead buf (R % cap))), pack (S % (2 * cap)) ((R + 1) % (2 * cap)),
          pack (S % (2 * cap)) ((R + 1) % (2 * cap)), buf.set (R % cap) none⟩ := by
  have hm2 := two_cap_bound hmax
  have hm0 : 0 < 2 * cap := by omega
  have hcv : (⟨c⟩ : State).back.val = R % (2 * cap) := by rw [hc]
  have hadv : ((⟨c⟩ : State).back.advance cap 1).val = (R + 1) % (2 * cap) := by
    show (((⟨c⟩ : State).back.val + 1) % 2 ^ BITS) % (2 * cap) = _
    rw [hcv, show (2 : Nat) ^ BITS = 2 ^ 32 from rfl,
      Nat.mod_eq_of_lt (show R % (2 * cap) + 1 < 2 ^ 32 by
        have := Nat.mod_lt R hm0
        omega)]
    exact succ_mod_shift R (2 * cap) (one_lt_two_cap hcap)
  have hidx : (⟨c⟩ : State).back.index cap = R % cap := by
    rw [HalfState.index, position_eq_mod, hcv,
      Nat.mod_eq_of_lt (show R % (2 * cap) < 2 ^ 31 by
        have := Nat.mod_lt R hm0
        omega),
      Nat.mod_mod_of_dvd _ (dvd_mul_left cap 2)]
  have hmask_eq : pack (S % (2 * cap)) (R % (2 * cap))
        ^^^ (((⟨c⟩ : State).back.val ^^^ ((⟨c⟩ : State).back.advance cap 1).val)
          <<< BITS)
      = pack (S % (2 * cap)) ((R + 1) % (2 * cap)) := by
    rw [hcv, hadv]
    show 2 ^ 32 * (R % (2 * cap)) + S % (2 * cap)
        ^^^ ((R % (2 * cap) ^^^ (R + 1) % (2 * cap)) <<< 32) = _
    rw [xor_high_split _ _ _ (by have := Nat.mod_lt S hm0; omega),
      ← Nat.xor_assoc, Nat.xor_self, Nat.zero_xor]
    rfl
  rw [recvCommit_eq, hmask_eq, hidx]

theorem push_commit_inv {T : Type} [Inhabited T] (σ : Sys T) (S R Ss : Nat) (v : T)
    (hcap : 0 < σ.cap) (hmax : σ.cap ≤ MAX_CAPACITY)
    (hRS : R ≤ S) (hlt : S - R < σ.cap)
    (hRSs : R ≤ Ss) (hSsS : Ss ≤ S) (hSsR : Ss ≤ R + σ.cap)
    (hrc : σ.rCache = pack (Ss % (2 * σ.cap)) (R % (2 * σ.cap)))
    (hsentlen : σ.sent.length = S)
    (hrecv : σ.received = σ.sent.take R)
    (hbuflen : σ.buf.length = σ.cap)
    (hbuf : ∀ j, R ≤ j → j < S →
      σ.buf[j % σ.cap]? = some (some (σ.sent.getD j default))) :
    InvAt (⟨σ.cap, pack ((S + 1) % (2 * σ.cap)) (R % (2 * σ.cap)),
        pack ((S + 1) % (2 * σ.cap)) (R % (2 * σ.cap)), σ.rCache,
        σ.buf.set (S % σ.cap) (some v), σ.sent ++ [v], σ.received⟩ : Sys T)
      (S + 1) R R Ss := by
  rw [InvAt]
  dsimp only
  refine ⟨hcap, hmax, by omega, by omega, by omega, by omega, by omega, by omega,
    by omega, rfl, rfl, hrc, ?_, ?_, ?_, ?_⟩
  · simp [hsentlen]
  · rw [hrecv, take_append_left _ _ _ (by omega)]
  · simp [hbuflen]
  · intro j hjR hjS1
    show (σ.buf.set (S % σ.cap) (some v))[j % σ.cap]?
      = some (some ((σ.sent ++ [v]).getD j default))
    by_cases hj : j = S
    · subst hj
      have hset : (σ.buf.set (j % σ.cap) (some v))[j % σ.cap]? = some (some v) :=
        List.getElem?_set_self (by rw [hbuflen]; exact Nat.mod_lt _ hcap)
      rw [hset, List.getD_eq_getElem?_getD]
      have hcat : (σ.sent ++ [v])[j]? = some v := by
        conv_lhs => rw [← hsentlen]
        exact List.getElem?_concat_length _ _
      rw [hcat]
      rfl
    · have hjS : j < S := by omega
      have hne : S % σ.cap ≠ j % σ.cap := by
        intro he
        exact hj ((mod_self_eq_iff σ.cap S j hcap (by omega) (by omega)).mp he).symm
      rw [List.getElem?_set_ne hne]
      have hgd : (σ.sent ++ [v]).getD j default = σ.sent.getD j default := by
        rw [List.getD_eq_getElem?_getD, List.getD_eq_getElem?_getD,
          List.getElem?_append_left (by rw [hsentlen]; exact hjS)]
      rw [hgd]
      exact hbuf j hjR hjS

theorem push_inv {T : Type} [Inhabited T] {σ : Sys T} {S R Rs Ss : Nat}
    (h : InvAt σ S R Rs Ss) (v : T) : Inv (σ.step (.push v)) := by
  obtain ⟨hcap, hmax, hRS, hSRcap, hRsR, hSRs, hRSs, hSsS, hSsR,
    hatomic, hsc, hrc, hsentlen, hrecv, hbuflen, hbuf⟩ := h
  have hm2 := two_cap_bound hmax
  have hm0 : 0 < 2 * σ.cap := by omega
  have hscn : (⟨σ.sCache⟩ : State).is_closed = false := by
    rw [hsc]
    exact state_is_closed_pack_mods _ _ _ hcap hmax
  have hatn : (⟨σ.atomic⟩ : State).is_closed = false := by
    rw [hatomic]
    exact state_is_closed_pack_mods _ _ _ hcap hmax
  have hscfull : (⟨σ.sCache⟩ : State).is_full σ.cap = decide (S - Rs = σ.cap) := by
    rw [hsc]
    exact is_full_pack _ _ _ hcap hmax (le_trans hRsR hRS) (by omega)
  have hatfull : (⟨σ.atomic⟩ : State).is_full σ.cap = decide (S - R = σ.cap) := by
    rw [hatomic]
    exact is_full_pack _ _ _ hcap hmax hRS (by omega)
  have hfa : (⟨σ.atomic⟩ : State).front = ⟨S % (2 * σ.cap)⟩ := by
    rw [hatomic]
    exact halfState_eq_of_val (pack_front_val _ _ (by
      have := Nat.mod_lt S hm0
      omega))
  have hfs : (⟨σ.sCache⟩ : State).front = ⟨S % (2 * σ.cap)⟩ := by
    rw [hsc]
    exact halfState_eq_of_val (pack_front_val _ _ (by
      have := Nat.mod_lt S hm0
      omega))
  by_cases hfull : S - Rs = σ.cap
  · have hf1 : (⟨σ.sCache⟩ : State).is_full σ.cap = true := by
      rw [hscfull]
      simp [hfull]
    by_cases hfullR : S - R = σ.cap
    · have hf2 : (⟨σ.atomic⟩ : State).is_full σ.cap = true := by
        rw [hatfull]
        simp [hfullR]
      refine ⟨S, R, R, Ss, ?_⟩
      simp only [Sys.step]
      rw [sendNow_refresh_full hscn hf1 hatn hf2, InvAt]
      dsimp only
      exact ⟨hcap, hmax, hRS, hSRcap, le_refl R, by omega, hRSs, hSsS, hSsR,
        hatomic, hatomic, hrc, hsentlen, hrecv, hbuflen, hbuf⟩
    · have hf2 : (⟨σ.atomic⟩ : State).is_full σ.cap = false := by
        rw [hatfull]
        simp [hfullR]
      have hcommit := sendCommit_packed T σ.cap S R σ.atomic σ.buf v hcap hmax hfa
      rw [← hatomic] at hcommit
      refine ⟨S + 1, R, R, Ss, ?_⟩
      simp only [Sys.step]
      rw [sendNow_refresh_commit hscn hf1 hatn hf2, hcommit]
      dsimp only
      exact push_commit_inv σ S R Ss v hcap hmax hRS (by omega) hRSs hSsS hSsR
        hrc hsentlen hrecv hbuflen hbuf
  · have hf1 : (⟨σ.sCache⟩ : State).is_full σ.cap = false := by
      rw [hscfull]
      simp [hfull]
    have hcommit := sendCommit_packed T σ.cap S R σ.sCache σ.buf v hcap hmax hfs
    rw [← hatomic] at hcommit
    refine ⟨S + 1, R, R, Ss, ?_⟩
    simp only [Sys.step]
    rw [sendNow_direct hscn hf1, hcommit]
    dsimp only
    exact push_commit_inv σ S R Ss v hcap hmax hRS (by omega) hRSs hSsS hSsR
      hrc hsentlen hrecv hbuflen hbuf

theorem pop_commit_inv {T : Type} [Inhabited T] (σ : Sys T) (S R Rs : Nat)
    (hcap : 0 < σ.cap) (hmax : σ.cap ≤ MAX_CAPACITY)
    (hRS : R < S) (hSRcap : S ≤ R + σ.cap)
    (hRsR : Rs ≤ R) (hSRs : S ≤ Rs + σ.cap)
    (hsc : σ.sCache = pack (S % (2 * σ.cap)) (Rs % (2 * σ.cap)))
    (hsentlen : σ.sent.length = S)
    (hrecv : σ.received = σ.sent.take R)
    (hbuflen : σ.buf.length = σ.cap)
    (hbuf : ∀ j, R ≤ j → j < S →
      σ.buf[j % σ.cap]? = some (some (σ.sent.getD j default))) :
    InvAt (⟨σ.cap, pack (S % (2 * σ.cap)) ((R + 1) % (2 * σ.cap)),
        σ.sCache, pack (S % (2 * σ.cap)) ((R + 1) % (2 * σ.cap)),
        σ.buf.set (R % σ.cap) none, σ.sent,
        σ.received ++ [slotRead σ.buf (R % σ.cap)]⟩ : Sys T)
      S (R + 1) Rs S := by
  rw [InvAt]
  dsimp only
  have hslot : slotRead σ.buf (R % σ.cap) = σ.sent.getD R default := by
    rw [slotRead, List.getD_eq_getElem?_getD, hbuf R (le_refl R) hRS]
    rfl
  refine ⟨hcap, hmax, by omega, by omega, by omega, by omega, by omega, le_refl S,
    by omega, rfl, hsc, rfl, hsentlen, ?_, ?_, ?_⟩
  · have hRlen : R < σ.sent.length := by omega
    have hx : σ.sent[R]? = some (σ.sent.get ⟨R, hRlen⟩) := List.getElem?_eq_getElem hRlen
    rw [hrecv, hslot, List.take_succ, hx]
    congr 1
    rw [List.getD_eq_getElem?_getD, hx]
    rfl
  · simp [hbuflen]
  · intro j hjR hjS
    show (σ.buf.set (R % σ.cap) none)[j % σ.cap]?
      = some (some (σ.sent.getD j default))
    have hne : R % σ.cap ≠ j % σ.cap := by
      intro he
      have : j = R := (mod_self_eq_iff σ.cap j R hcap (by omega) (by omega)).mp he.symm
      omega
    rw [List.getElem?_set_ne hne]
    exact hbuf j (by omega) hjS

theorem pop_inv {T : Type} [Inhabited T] {σ : Sys T} {S R Rs Ss : Nat}
    (h : InvAt σ S R Rs Ss) : Inv (σ.step .pop) := by
  obtain ⟨hcap, hmax, hRS, hSRcap, hRsR, hSRs, hRSs, hSsS, hSsR,
    hatomic, hsc, hrc, hsentlen, hrecv, hbuflen, hbuf⟩ := h
  have hm2 := two_cap_bound hmax
  have hm0 : 0 < 2 * σ.cap := by omega
  have hrcn : (⟨σ.rCache⟩ : State).is_closed = false := by
    rw [hrc]
    exact state_is_closed_pack_mods _ _ _ hcap hmax
  have hatn : (⟨σ.atomic⟩ : State).is_closed = false := by
    rw [hatomic]
    exact state_is_closed_pack_mods _ _ _ hcap hmax
  have hrcempty : (⟨σ.rCache⟩ : State).is_empty = decide (Ss = R) := by
    rw [hrc]
    exact is_empty_pack _ _ _ hcap hmax hRSs (by omega)
  have hatempty : (⟨σ.atomic⟩ : State).is_empty = decide (S = R) := by
    rw [hatomic]
    exact is_empty_pack _ _ _ hcap hmax hRS (by omega)
  have hba : (⟨σ.atomic⟩ : State).back = ⟨R % (2 * σ.cap)⟩ := by
    rw [hatomic]
    exact halfState_eq_of_val (pack_back_val _ _ (by
      have := Nat.mod_lt S hm0
      omega))
  have hbr : (⟨σ.rCache⟩ : State).back = ⟨R % (2 * σ.cap)⟩ := by
    rw [hrc]
    exact halfState_eq_of_val (pack_back_val _ _ (by
      have := Nat.mod_lt Ss hm0
      omega))
  by_cases hSs : Ss = R
  · have he1 : (⟨σ.rCache⟩ : State).is_empty = true := by
      rw [hrcempty]
      simp [hSs]
    by_cases hSR : S = R
    · have he2 : (⟨σ.atomic⟩ : State).is_empty = true := by
        rw [hatempty]
        simp [hSR]
      refine ⟨S, R, Rs, S, ?_⟩
      simp only [Sys.step]
      rw [receiveNow_reload_empty_open he1 hrcn he2 hatn, InvAt]
      dsimp only
      exact ⟨hcap, hmax, hRS, hSRcap, hRsR, hSRs, hRS, le_refl S, by omega,
        hatomic, hsc, hatomic, hsentlen, hrecv, hbuflen, hbuf⟩
    · have hRS' : R < S := by omega
      have he2 : (⟨σ.atomic⟩ : State).is_empty = false := by
        rw [hatempty]
        simp [hSR]
      have hcommit := recvCommit_packed T σ.cap S R σ.atomic σ.buf hcap hmax hba
      rw [← hatomic] at hcommit
      refine ⟨S, R + 1, Rs, S, ?_⟩
      simp only [Sys.step]
      rw [receiveNow_reload_commit he1 hrcn he2, hcommit]
      dsimp only
      exact pop_commit_inv σ S R Rs hcap hmax hRS' hSRcap hRsR hSRs hsc
        hsentlen hrecv hbuflen hbuf
  · have he1 : (⟨σ.rCache⟩ : State).is_empty = false := by
      rw [hrcempty]
      simp [hSs]
    have hRS' : R < S := by omega
    have hcommit := recvCommit_packed T σ.cap S R σ.rCache σ.buf hcap hmax hbr
    rw [← hatomic] at hcommit
    refine ⟨S, R + 1, Rs, S, ?_⟩
    simp only [Sys.step]
    rw [receiveNow_cache_nonempty he1, hcommit]
    dsimp only
    exact pop_commit_inv σ S R Rs hcap hmax hRS' hSRcap hRsR hSRs hsc
      hsentlen hrecv hbuflen hbuf

theorem init_inv (T : Type) [Inhabited T] (cap : Nat) (hcap : 0 < cap)
    (hmax : cap ≤ MAX_CAPACITY) : Inv (Sys.init T cap) := by
  refine ⟨0, 0, 0, 0, ?_⟩
  rw [InvAt]
  dsimp only [Sys.init]
  refine ⟨hcap, hmax, le_refl 0, by omega, le_refl 0, by omega, le_refl 0,
    le_refl 0, by omega, ?_, ?_, ?_, rfl, rfl, ?_, ?_⟩
  · show (0 : Nat) = pack (0 % (2 * cap)) (0 % (2 * cap))
    rw [Nat.zero_mod]
    rfl
  · show (0 : Nat) = pack (0 % (2 * cap)) (0 % (2 * cap))
    rw [Nat.zero_mod]
    rfl
  · show (0 : Nat) = pack (0 % (2 * cap)) (0 % (2 * cap))
    rw [Nat.zero_mod]
    rfl
  · exact List.length_replicate _ _
  · intro j _ hj
    exact absurd hj (by omega)

theorem run_inv (T : Type) [Inhabited T] (ops : List (Op T)) (σ : Sys T)
    (h : Inv σ) : Inv (ops.foldl Sys.step σ) := by
  induction ops generalizing σ with
  | nil => simpa using h
  | cons op t ih =>
    rw [List.foldl_cons]
    apply ih
    obtain ⟨S, R, Rs, Ss, hinv⟩ := h
    cases op with
    | push v => exact push_inv hinv v
    | pop => exact pop_inv hinv

/-- Claim C1: over every interleaving of producer `sendNow` and consumer
`receiveNow` operations on a fresh channel of any in-range capacity, the
sequence of values returned by successful receives is exactly an initial
prefix of the sequence of values accepted by successful sends — no
duplication, no reordering, no gaps. -/
theorem received_prefix_of_sent (T : Type) [Inhabited T] (cap : Nat)
    (hcap : 0 < cap) (hmax : cap ≤ MAX_CAPACITY) (ops : List (Op T)) :
    (Sys.run T cap ops).received
      = (Sys.run T cap ops).sent.take (Sys.run T cap ops).received.length := by
  obtain ⟨S, R, Rs, Ss, hinv⟩ :=
    run_inv T ops (Sys.init T cap) (init_inv T cap hcap hmax)
  obtain ⟨-, -, hRS, -, -, -, -, -, -, -, -, -, hsentlen, hrecv, -, -⟩ := hinv
  show (ops.foldl Sys.step (Sys.init T cap)).received
    = (ops.foldl Sys.step (Sys.init T cap)).sent.take
        (ops.foldl Sys.step (Sys.init T cap)).received.length
  rw [hrecv]
  congr 1
  rw [List.length_take, hsentlen]
  omega

/-- Witness for `received_prefix_of_sent` at capacity 2 and a mixed
interleaving (including receives on empty and a send into a full
channel). -/
theorem received_prefix_of_sent_witness :
    0 < 2 ∧ 2 ≤ MAX_CAPACITY
      ∧ (Sys.run Nat 2 [.pop, .push 7, .push 8, .push 9, .pop, .push 10, .pop,
            .pop, .pop]).received
          = (Sys.run Nat 2 [.pop, .push 7, .push 8, .push 9, .pop, .push 10, .pop,
              .pop, .pop]).sent.take
              ((Sys.run Nat 2 [.pop, .push 7, .push 8, .push 9, .pop, .push 10,
                .pop, .pop, .pop]).received.length) :=
  ⟨by decide, by decide,
    received_prefix_of_sent Nat 2 (by decide) (by decide)
      [.pop, .push 7, .push 8, .push 9, .pop, .push 10, .pop, .pop, .pop]⟩

end AsyncSpsc
